import Mathlib

/-!
A shallow embedding of the GrootFSM engine (`src/fsm/base.py`) and proofs of
the specification's claims about it.

Modelling decisions, mirroring the Python source:

* Python dicts are association lists `List (String × β)`; `dict_get` is
  `dict.get` (first match; keys are unique by the construction-time checks,
  and fresh-key assignment appends at the tail, as CPython dicts preserve
  insertion order).
* Callback hooks (`before_exit`, `after_entry`, `on_transition`) are opaque
  callables in Python.  Here a hook slot is `Option Nat` — `none` meaning the
  Python `None` default, `some h` an opaque callable identity `h`.  The engine
  never inspects a hook; it only calls it.  A call is recorded as an `Ev`
  event, and a behaviour oracle `beh : Ev → Bool` says whether that particular
  call raises (`true`) or returns normally (`false`), standing for the
  arbitrary user code inside the callable.  The keyword payload is passed
  through unchanged to every hook and never inspected by the engine, so it is
  not represented.
* Python raise sites all raise `FSMException` with pairwise distinct message
  formats; the `Err` inductive has one constructor per raise site, carrying
  the same data the message format interpolates.  An exception raised by a
  user hook propagates unwrapped; that is the separate constructor
  `Err.hookRaise`, carrying the event of the raising call.
* `FSM.__init__` can raise, in which case no instance is observable; so
  construction is `FSM.new : … → Except Err FSM`.
* The execute operations mutate only `self._state` and can raise; they are
  functions `FSM → … → FSM × List Ev × Option Err` returning the engine after
  the call (unchanged when an exception propagated before the assignment),
  the trace of observable events, and the exception if one was raised.
-/

namespace GrootFSM

/-- `d.get(k)` on a Python dict modelled as an association list. -/
def dict_get {β : Type} : List (String × β) → String → Option β
  | [], _ => none
  | (k, v) :: rest, key => if k = key then some v else dict_get rest key

/-- `d[k] = v` for a key already present: replaces the value in place
(CPython keeps the key's position).  Keys are unique in every dict the
engine builds, so replacing the first occurrence is exact. -/
def dict_set {β : Type} : List (String × β) → String → β → List (String × β)
  | [], _, _ => []
  | (k, w) :: rest, key, v =>
      if k = key then (key, v) :: rest else (k, w) :: dict_set rest key v

/-- `class State` (src/fsm/base.py lines 6–44): a named node with two
optional hook slots. -/
structure State where
  name : String
  before_exit : Option Nat
  after_entry : Option Nat
deriving DecidableEq, Repr

/-- `class Transition` (src/fsm/base.py lines 47–95): a named directed edge
with one optional hook slot. -/
structure Transition where
  name : String
  source_name : String
  destination_name : String
  on_transition : Option Nat
deriving DecidableEq, Repr

/-- An observable event of one engine operation: a hook call (the hook's
identity and the name data of the call site) or the assignment to
`self._state`. -/
inductive Ev where
  | exitCall (stateName : String) (hook : Nat)
  | transCall (transName : String) (hook : Nat)
  | enterCall (stateName : String) (hook : Nat)
  | setState (stateName : String)
deriving DecidableEq, Repr

/-- One `Err` constructor per `raise FSMException(...)` site in the Python
source (the message formats are pairwise distinct, so the raise sites are
observably distinguishable), plus `hookRaise` for an exception raised inside
a user hook, which propagates unwrapped. -/
inductive Err where
  /-- line 195: duplicate state name at registration. -/
  | duplicateState (stateName : String)
  /-- line 211: transition source is not a registered state. -/
  | invalidSourceState (sourceName transName : String)
  /-- line 213: transition destination is not a registered state. -/
  | invalidDestinationState (destName transName : String)
  /-- line 215: a transition between this ordered pair already exists. -/
  | duplicateEdge (sourceName destName : String)
  /-- line 217: a transition of this name from this source already exists. -/
  | duplicateTransitionName (transName sourceName : String)
  /-- line 232: empty or unregistered initial state name. -/
  | invalidInitialState
  /-- line 138: no outgoing transition of this name from the current state. -/
  | invalidTransitionFrom (transName sourceName : String)
  /-- line 153: `execute_transition_to` destination is not a registered state. -/
  | invalidStateInExecute (destName : String)
  /-- line 157: no outgoing transition from the current state to this
  destination. -/
  | invalidTransitionBetween (sourceName destName : String)
  /-- an exception raised by the user hook called at this event; the engine
  neither catches nor wraps it. -/
  | hookRaise (ev : Ev)
  /-- `AttributeError` from calling `.get` on `None`: reached only if the
  current state name is absent from the lookup map, which construction rules
  out. -/
  | noneTypeAttribute
deriving DecidableEq, Repr

/-- `State.exit_state` (lines 28–35): call `before_exit` if present.
Returns the events of the call and the exception, if the hook raised. -/
def State.exit_state (s : State) (beh : Ev → Bool) : List Ev × Option Err :=
  match s.before_exit with
  | none => ([], none)
  | some h =>
      ([Ev.exitCall s.name h],
       if beh (Ev.exitCall s.name h) then some (Err.hookRaise (Ev.exitCall s.name h)) else none)

/-- `State.enter_state` (lines 37–44): call `after_entry` if present. -/
def State.enter_state (s : State) (beh : Ev → Bool) : List Ev × Option Err :=
  match s.after_entry with
  | none => ([], none)
  | some h =>
      ([Ev.enterCall s.name h],
       if beh (Ev.enterCall s.name h) then some (Err.hookRaise (Ev.enterCall s.name h)) else none)

/-- `Transition.execute` (lines 88–95): call `on_transition` if present. -/
def Transition.execute (t : Transition) (beh : Ev → Bool) : List Ev × Option Err :=
  match t.on_transition with
  | none => ([], none)
  | some h =>
      ([Ev.transCall t.name h],
       if beh (Ev.transCall t.name h) then some (Err.hookRaise (Ev.transCall t.name h)) else none)

/-- One value of `self._state_transition_map`: the `{'state': …,
'transitions': …, 'destination_states': …}` dict built at line 196. -/
structure StateEntry where
  state : State
  transitions : List (String × Transition)
  destination_states : List (String × Transition)
deriving DecidableEq, Repr

/-- The FSM object after successful construction: the lookup structure
`_state_transition_map` and the mutable current-state name `_state`. -/
structure FSM where
  map : List (String × StateEntry)
  state : String
deriving DecidableEq, Repr

/-- `FSM._is_valid_state` (lines 179–185). -/
def FSM.is_valid_state_map (m : List (String × StateEntry)) (stateName : String) : Bool :=
  (dict_get m stateName).isSome

/-- `FSM._validate_and_add_state` (lines 187–197), acting on the map being
built.  The truthiness test `if self._state_transition_map.get(state.name):`
is `isSome` here because every stored value is a non-empty dict, hence
truthy. -/
def validate_and_add_state (m : List (String × StateEntry)) (s : State) :
    Except Err (List (String × StateEntry)) :=
  match dict_get m s.name with
  | some _ => .error (Err.duplicateState s.name)
  | none => .ok (m ++ [(s.name, ⟨s, [], []⟩)])

/-- `FSM._validate_and_add_transition` (lines 199–221), acting on the map
being built.  The four checks run in source order: valid source, valid
destination, duplicate edge, duplicate name.  `Transition` objects are always
truthy, so the truthiness tests are `isSome`. -/
def validate_and_add_transition (m : List (String × StateEntry)) (t : Transition) :
    Except Err (List (String × StateEntry)) :=
  match dict_get m t.source_name with
  | none => .error (Err.invalidSourceState t.source_name t.name)
  | some entry =>
    if ¬ FSM.is_valid_state_map m t.destination_name then
      .error (Err.invalidDestinationState t.destination_name t.name)
    else if (dict_get entry.destination_states t.destination_name).isSome then
      .error (Err.duplicateEdge t.source_name t.destination_name)
    else if (dict_get entry.transitions t.name).isSome then
      .error (Err.duplicateTransitionName t.name t.source_name)
    else
      .ok (dict_set m t.source_name
        { entry with
          transitions := entry.transitions ++ [(t.name, t)],
          destination_states := entry.destination_states ++ [(t.destination_name, t)] })

/-- The loop `for state in state_list: self._validate_and_add_state(state)`
(lines 111–112); the first exception aborts construction. -/
def add_states (m : List (String × StateEntry)) : List State →
    Except Err (List (String × StateEntry))
  | [] => .ok m
  | s :: rest =>
    match validate_and_add_state m s with
    | .error e => .error e
    | .ok m2 => add_states m2 rest

/-- The loop `for transition in transition_list: …` (lines 115–116). -/
def add_transitions (m : List (String × StateEntry)) : List Transition →
    Except Err (List (String × StateEntry))
  | [] => .ok m
  | t :: rest =>
    match validate_and_add_transition m t with
    | .error e => .error e
    | .ok m2 => add_transitions m2 rest

/-- `FSM.__init__` (lines 99–119) together with
`_validate_and_set_initial_state` (lines 223–233): all-or-nothing
construction.  `not initial_state_name` is `initial_state_name = ""`
(the name is a string), and the stored entry dicts are truthy, so
`not self._state_transition_map.get(initial_state_name)` is `isNone`. -/
def FSM.new (initial_state_name : String) (state_list : List State)
    (transition_list : List Transition) : Except Err FSM :=
  match add_states [] state_list with
  | .error e => .error e
  | .ok m1 =>
    match add_transitions m1 transition_list with
    | .error e => .error e
    | .ok m2 =>
      if initial_state_name = "" ∨ (dict_get m2 initial_state_name).isNone then
        .error Err.invalidInitialState
      else
        .ok ⟨m2, initial_state_name⟩

/-- `FSM._execute` (lines 164–177): exit hook, transition hook, entry hook,
then the assignment `self._state = destination_state.name`.  The first hook
exception aborts the sequence; the events already produced stay produced and
`_state` is unchanged. -/
def FSM.execProtocol (fsm : FSM) (source_state destination_state : State)
    (t : Transition) (beh : Ev → Bool) : FSM × List Ev × Option Err :=
  match source_state.exit_state beh with
  | (ev1, some e) => (fsm, ev1, some e)
  | (ev1, none) =>
    match t.execute beh with
    | (ev2, some e) => (fsm, ev1 ++ ev2, some e)
    | (ev2, none) =>
      match destination_state.enter_state beh with
      | (ev3, some e) => (fsm, ev1 ++ ev2 ++ ev3, some e)
      | (ev3, none) =>
          ({ fsm with state := destination_state.name },
           ev1 ++ ev2 ++ ev3 ++ [Ev.setState destination_state.name],
           none)

/-- `FSM.execute_transition` (lines 129–143): look the name up among the
current state's outgoing transitions; on a miss raise; otherwise run the
protocol.  If the current state name were absent from the map, the chained
`.get` calls would raise `AttributeError` on `None` (`Err.noneTypeAttribute`);
construction makes that unreachable. -/
def FSM.execute_transition (fsm : FSM) (transition_name : String) (beh : Ev → Bool) :
    FSM × List Ev × Option Err :=
  match dict_get fsm.map fsm.state with
  | none => (fsm, [], some Err.noneTypeAttribute)
  | some entry =>
    match dict_get entry.transitions transition_name with
    | none => (fsm, [], some (Err.invalidTransitionFrom transition_name fsm.state))
    | some t =>
      match dict_get fsm.map t.destination_name with
      | none => (fsm, [], some Err.noneTypeAttribute)
      | some destEntry => fsm.execProtocol entry.state destEntry.state t beh

/-- `FSM.execute_transition_to` (lines 145–162): registered-destination check
first, then the destination-indexed lookup from the current state. -/
def FSM.execute_transition_to (fsm : FSM) (destination_name : String) (beh : Ev → Bool) :
    FSM × List Ev × Option Err :=
  if ¬ FSM.is_valid_state_map fsm.map destination_name then
    (fsm, [], some (Err.invalidStateInExecute destination_name))
  else
    match dict_get fsm.map fsm.state with
    | none => (fsm, [], some Err.noneTypeAttribute)
    | some entry =>
      match dict_get entry.destination_states destination_name with
      | none => (fsm, [], some (Err.invalidTransitionBetween fsm.state destination_name))
      | some t =>
        match dict_get fsm.map destination_name with
        | none => (fsm, [], some Err.noneTypeAttribute)
        | some destEntry => fsm.execProtocol entry.state destEntry.state t beh

/-! ### Auxiliary functional descriptions of the built lookup structure -/

/-- The map produced by registering `states` alone: one entry per state, in
list order, with empty transition dicts. -/
def base_map (states : List State) : List (String × StateEntry) :=
  states.map (fun s => (s.name, ⟨s, [], []⟩))

/-- The unconditional insertion a successful
`_validate_and_add_transition` performs (lines 219–221). -/
def add_transition_unchecked (m : List (String × StateEntry)) (t : Transition) :
    List (String × StateEntry) :=
  match dict_get m t.source_name with
  | none => m
  | some entry =>
      dict_set m t.source_name
        { entry with
          transitions := entry.transitions ++ [(t.name, t)],
          destination_states := entry.destination_states ++ [(t.destination_name, t)] }

/-- Unconditional insertion of a whole transition list, left to right. -/
def add_all_unchecked (m : List (String × StateEntry)) : List Transition →
    List (String × StateEntry)
  | [] => m
  | t :: ts => add_all_unchecked (add_transition_unchecked m t) ts

/-- All transitions of `ts` have both endpoints registered in `m`. -/
def EndpointsValid (m : List (String × StateEntry)) (ts : List Transition) : Prop :=
  ∀ t ∈ ts, (dict_get m t.source_name).isSome ∧ (dict_get m t.destination_name).isSome

/-- No transition of `ts` duplicates an ordered (source, destination) edge
already stored in `m`. -/
def EdgeClashFree (m : List (String × StateEntry)) (ts : List Transition) : Prop :=
  ∀ t ∈ ts, ∀ e, dict_get m t.source_name = some e →
    dict_get e.destination_states t.destination_name = none

/-- No transition of `ts` duplicates a transition name already stored under
its source state in `m`. -/
def NameClashFree (m : List (String × StateEntry)) (ts : List Transition) : Prop :=
  ∀ t ∈ ts, ∀ e, dict_get m t.source_name = some e →
    dict_get e.transitions t.name = none

/-- Some transition of `ts` would duplicate an ordered (source, destination)
edge: either one already stored in `m`, or an earlier one of `ts` itself. -/
def EdgeBad (m : List (String × StateEntry)) (ts : List Transition) : Prop :=
  (∃ t ∈ ts, ∃ e, dict_get m t.source_name = some e ∧
    (dict_get e.destination_states t.destination_name).isSome) ∨
  ¬ (ts.map fun t => (t.source_name, t.destination_name)).Nodup

/-- Some transition of `ts` would duplicate a transition name under its
source: either one already stored in `m`, or an earlier one of `ts`. -/
def NameBad (m : List (String × StateEntry)) (ts : List Transition) : Prop :=
  (∃ t ∈ ts, ∃ e, dict_get m t.source_name = some e ∧
    (dict_get e.transitions t.name).isSome) ∨
  ¬ (ts.map fun t => (t.source_name, t.name)).Nodup

/-- The spec's validity conditions on a construction input, following the
spec's words (§3, invariants 1–5): unique state names; every transition
endpoint references a registered state; no duplicate ordered
(source, destination) edge; transition names unique per source; non-empty
registered initial state name. -/
def SpecValidInput (initial : String) (states : List State) (ts : List Transition) : Prop :=
  (states.map State.name).Nodup ∧
  (∀ t ∈ ts, t.source_name ∈ states.map State.name ∧
    t.destination_name ∈ states.map State.name) ∧
  (ts.map fun t => (t.source_name, t.destination_name)).Nodup ∧
  (ts.map fun t => (t.source_name, t.name)).Nodup ∧
  initial ≠ "" ∧ initial ∈ states.map State.name

instance (initial : String) (states : List State) (ts : List Transition) :
    Decidable (SpecValidInput initial states ts) := by
  unfold SpecValidInput; infer_instance

/-! ### The execution protocol: hook call traces -/

/-- The events a call to `exit_state` produces: one `exitCall` if the hook is
present, none otherwise. -/
def State.exitEvents (s : State) : List Ev :=
  match s.before_exit with
  | none => []
  | some h => [Ev.exitCall s.name h]

/-- The events a call to `enter_state` produces. -/
def State.enterEvents (s : State) : List Ev :=
  match s.after_entry with
  | none => []
  | some h => [Ev.enterCall s.name h]

/-- The events a call to `Transition.execute` produces. -/
def Transition.transEvents (t : Transition) : List Ev :=
  match t.on_transition with
  | none => []
  | some h => [Ev.transCall t.name h]

/-! ### A concrete two-state machine used by the execution witnesses -/

/-- The A→B transition of the demo machine, with a transition hook. -/
def tAB : Transition := ⟨"t", "A", "B", some 5⟩

/-- Demo entry for state A: exit hook 1, entry hook 2, one outgoing edge. -/
def entryA : StateEntry := ⟨⟨"A", some 1, some 2⟩, [("t", tAB)], [("B", tAB)]⟩

/-- The B→A transition of the demo machine, named `u`. -/
def tBA : Transition := ⟨"u", "B", "A", none⟩

/-- Demo entry for state B: exit hook 3, entry hook 4, one outgoing edge
named `u` (a name that exists only at B, not at A). -/
def entryB : StateEntry := ⟨⟨"B", some 3, some 4⟩, [("u", tBA)], [("A", tBA)]⟩

/-- A two-state machine A→B currently at A, as the construction
`FSM.new "A" [A, B] [tAB]` builds it. -/
def demoFSM : FSM := ⟨[("A", entryA), ("B", entryB)], "A"⟩

/-- The self-loop transition of the one-state witness machine. -/
def tSS : Transition := ⟨"s", "S", "S", some 7⟩

/-- Entry for the one-state witness machine: state S with exit hook 8 and
entry hook 9 and the self-loop `s`. -/
def entryS : StateEntry := ⟨⟨"S", some 8, some 9⟩, [("s", tSS)], [("S", tSS)]⟩

/-- A one-state machine with a self-loop, currently at S. -/
def selfFSM : FSM := ⟨[("S", entryS)], "S"⟩

/-! ### Dictionary lemmas -/

theorem dict_get_append {β : Type} (a b : List (String × β)) (key : String) :
    dict_get (a ++ b) key =
      match dict_get a key with
      | some v => some v
      | none => dict_get b key := by
  induction a with
  | nil => simp [dict_get]
  | cons p rest ih =>
      obtain ⟨k, v⟩ := p
      by_cases h : k = key <;> simp [dict_get, h, ih]

theorem dict_get_isSome_iff_mem {β : Type} (d : List (String × β)) (key : String) :
    (dict_get d key).isSome ↔ key ∈ d.map Prod.fst := by
  induction d with
  | nil => simp [dict_get]
  | cons p rest ih =>
      obtain ⟨k, v⟩ := p
      by_cases h : k = key
      · subst h; simp [dict_get]
      · have h2 : ¬ key = k := fun hh => h hh.symm
        simp [dict_get, h, h2, ih]

theorem dict_set_keys {β : Type} (d : List (String × β)) (key : String) (v : β) :
    (dict_set d key v).map Prod.fst = d.map Prod.fst := by
  induction d with
  | nil => simp [dict_set]
  | cons p rest ih =>
      obtain ⟨k, w⟩ := p
      by_cases h : k = key
      · subst h; simp [dict_set]
      · simp [dict_set, h, ih]

theorem dict_get_dict_set_same {β : Type} (d : List (String × β)) (key : String) (v : β)
    (h : (dict_get d key).isSome) : dict_get (dict_set d key v) key = some v := by
  induction d with
  | nil => simp [dict_get] at h
  | cons p rest ih =>
      obtain ⟨k, w⟩ := p
      by_cases hk : k = key
      · simp [dict_set, dict_get, hk]
      · simp [dict_get, hk] at h
        simpa [dict_set, dict_get, hk] using ih h

theorem dict_get_dict_set_ne {β : Type} (d : List (String × β)) (key key2 : String) (v : β)
    (h : key ≠ key2) : dict_get (dict_set d key v) key2 = dict_get d key2 := by
  induction d with
  | nil => simp [dict_set]
  | cons p rest ih =>
      obtain ⟨k, w⟩ := p
      by_cases hk : k = key
      · subst hk
        simp [dict_set, dict_get, h]
      · by_cases hk2 : k = key2 <;>
          simp [dict_set, dict_get, hk, hk2, Ne.symm h, ih]

theorem base_map_keys (states : List State) :
    (base_map states).map Prod.fst = states.map State.name := by
  simp [base_map, Function.comp]

theorem add_transition_unchecked_keys (m : List (String × StateEntry)) (t : Transition) :
    (add_transition_unchecked m t).map Prod.fst = m.map Prod.fst := by
  unfold add_transition_unchecked
  cases h : dict_get m t.source_name with
  | none => rfl
  | some entry => simp [dict_set_keys]

theorem add_all_unchecked_keys (m : List (String × StateEntry)) (ts : List Transition) :
    (add_all_unchecked m ts).map Prod.fst = m.map Prod.fst := by
  induction ts generalizing m with
  | nil => rfl
  | cons t rest ih => simp [add_all_unchecked, ih, add_transition_unchecked_keys]

/-! ### Shape of a successful construction -/

theorem add_states_ok_shape (states : List State) (m m2 : List (String × StateEntry))
    (h : add_states m states = .ok m2) : m2 = m ++ base_map states := by
  induction states generalizing m with
  | nil => simpa [add_states, base_map] using h.symm
  | cons s rest ih =>
      rw [add_states] at h
      cases hv : validate_and_add_state m s with
      | error e => rw [hv] at h; exact absurd h (by simp)
      | ok m1 =>
          rw [hv] at h
          rw [validate_and_add_state] at hv
          cases hg : dict_get m s.name with
          | some _ => rw [hg] at hv; exact absurd hv (by simp)
          | none =>
              rw [hg] at hv
              have hm1 : m1 = m ++ [(s.name, ⟨s, [], []⟩)] := by
                cases hv; rfl
              subst hm1
              simpa [base_map, List.append_assoc] using ih _ h

theorem validate_and_add_transition_ok_shape (m m2 : List (String × StateEntry))
    (t : Transition) (h : validate_and_add_transition m t = .ok m2) :
    m2 = add_transition_unchecked m t := by
  rw [validate_and_add_transition] at h
  cases hg : dict_get m t.source_name with
  | none => rw [hg] at h; exact absurd h (by simp)
  | some entry =>
      rw [hg] at h
      rw [add_transition_unchecked, hg]
      by_cases h1 : FSM.is_valid_state_map m t.destination_name
      · by_cases h2 : (dict_get entry.destination_states t.destination_name).isSome
        · simp [h1, h2] at h
        · by_cases h3 : (dict_get entry.transitions t.name).isSome
          · simp [h1, h2, h3] at h
          · simp [h1, h2, h3] at h
            exact h.symm
      · simp [h1] at h

theorem add_transitions_ok_shape (ts : List Transition) (m m2 : List (String × StateEntry))
    (h : add_transitions m ts = .ok m2) : m2 = add_all_unchecked m ts := by
  induction ts generalizing m with
  | nil => simpa [add_transitions, add_all_unchecked] using h.symm
  | cons t rest ih =>
      rw [add_transitions] at h
      cases hv : validate_and_add_transition m t with
      | error e => rw [hv] at h; exact absurd h (by simp)
      | ok m1 =>
          rw [hv] at h
          have := validate_and_add_transition_ok_shape m m1 t hv
          subst this
          simpa [add_all_unchecked] using ih _ h

/-! ### More helpers about the unchecked insertion -/

theorem dict_get_isSome_add_transition_unchecked
    (m : List (String × StateEntry)) (t : Transition) (k : String) :
    (dict_get (add_transition_unchecked m t) k).isSome ↔ (dict_get m k).isSome := by
  rw [dict_get_isSome_iff_mem, dict_get_isSome_iff_mem, add_transition_unchecked_keys]

theorem dict_get_add_transition_unchecked_src
    (m : List (String × StateEntry)) (t : Transition) (entry : StateEntry)
    (hent : dict_get m t.source_name = some entry) :
    dict_get (add_transition_unchecked m t) t.source_name =
      some { entry with
             transitions := entry.transitions ++ [(t.name, t)],
             destination_states := entry.destination_states ++ [(t.destination_name, t)] } := by
  rw [add_transition_unchecked, hent]
  exact dict_get_dict_set_same _ _ _ (by simp [hent])

theorem dict_get_add_transition_unchecked_ne
    (m : List (String × StateEntry)) (t : Transition) (k : String)
    (h : k ≠ t.source_name) :
    dict_get (add_transition_unchecked m t) k = dict_get m k := by
  rw [add_transition_unchecked]
  cases hg : dict_get m t.source_name with
  | none => rfl
  | some entry => exact dict_get_dict_set_ne _ _ _ _ (Ne.symm h)

theorem dict_get_base_map_empty (states : List State) (k : String) (e : StateEntry)
    (h : dict_get (base_map states) k = some e) :
    e.transitions = [] ∧ e.destination_states = [] := by
  induction states with
  | nil => simp [base_map, dict_get] at h
  | cons s rest ih =>
      by_cases hk : s.name = k
      · simp [base_map, dict_get, hk] at h
        simp [← h]
      · simp only [base_map, List.map_cons, dict_get, hk, if_neg hk] at h
        exact ih h

/-! ### Success of construction on valid input -/

theorem add_states_ok_of_valid (states : List State) (m : List (String × StateEntry))
    (hnd : (states.map State.name).Nodup)
    (hfresh : ∀ s ∈ states, dict_get m s.name = none) :
    add_states m states = .ok (m ++ base_map states) := by
  induction states generalizing m with
  | nil => simp [add_states, base_map]
  | cons s rest ih =>
      have hs : dict_get m s.name = none := hfresh s (by simp)
      have hnd2 : (rest.map State.name).Nodup := (List.nodup_cons.mp hnd).2
      have hmem : s.name ∉ rest.map State.name := (List.nodup_cons.mp hnd).1
      have hfresh2 : ∀ s2 ∈ rest, dict_get (m ++ [(s.name, ⟨s, [], []⟩)]) s2.name = none := by
        intro s2 hs2
        rw [dict_get_append, hfresh s2 (by simp [hs2])]
        have hne : s.name ≠ s2.name := fun hh => hmem (hh ▸ List.mem_map_of_mem State.name hs2)
        simp [dict_get, hne]
      have hrec := ih (m ++ [(s.name, ⟨s, [], []⟩)]) hnd2 hfresh2
      simp only [add_states, validate_and_add_state, hs]
      rw [hrec]
      simp [base_map, List.append_assoc]

theorem validate_and_add_transition_ok_of
    (m : List (String × StateEntry)) (t : Transition) (entry : StateEntry)
    (hent : dict_get m t.source_name = some entry)
    (hdst : (dict_get m t.destination_name).isSome)
    (hd : dict_get entry.destination_states t.destination_name = none)
    (hn : dict_get entry.transitions t.name = none) :
    validate_and_add_transition m t = .ok (add_transition_unchecked m t) := by
  rw [validate_and_add_transition, hent, add_transition_unchecked, hent]
  simp [FSM.is_valid_state_map, hdst, hd, hn]

theorem endpointsValid_step (m : List (String × StateEntry)) (t : Transition)
    (rest : List Transition) (h1 : EndpointsValid m (t :: rest)) :
    EndpointsValid (add_transition_unchecked m t) rest := by
  intro t2 ht2
  rw [dict_get_isSome_add_transition_unchecked, dict_get_isSome_add_transition_unchecked]
  exact h1 t2 (by simp [ht2])

theorem edgeClashFree_step (m : List (String × StateEntry)) (t : Transition)
    (rest : List Transition) (entry : StateEntry)
    (hent : dict_get m t.source_name = some entry)
    (h2 : EdgeClashFree m (t :: rest))
    (h3 : ((t :: rest).map fun t => (t.source_name, t.destination_name)).Nodup) :
    EdgeClashFree (add_transition_unchecked m t) rest := by
  intro t2 ht2 e2 he2
  by_cases hss : t2.source_name = t.source_name
  · rw [hss, dict_get_add_transition_unchecked_src m t entry hent] at he2
    have he2e : e2 = { entry with
        transitions := entry.transitions ++ [(t.name, t)],
        destination_states := entry.destination_states ++ [(t.destination_name, t)] } :=
      (Option.some.injEq _ _ ▸ he2).symm
    have hd2 := h2 t2 (by simp [ht2]) entry (hss ▸ hent)
    have hpair : (t.source_name, t.destination_name) ∉
        rest.map fun t => (t.source_name, t.destination_name) :=
      (List.nodup_cons.mp (by simpa using h3)).1
    have hdd : t.destination_name ≠ t2.destination_name := by
      intro hdeq
      apply hpair
      have : (t2.source_name, t2.destination_name) ∈
          rest.map fun t => (t.source_name, t.destination_name) :=
        List.mem_map_of_mem _ ht2
      rwa [hss, ← hdeq] at this
    subst he2e
    simp only [dict_get_append, hd2]
    simp [dict_get, hdd]
  · rw [dict_get_add_transition_unchecked_ne m t t2.source_name hss] at he2
    exact h2 t2 (by simp [ht2]) e2 he2

theorem nameClashFree_step (m : List (String × StateEntry)) (t : Transition)
    (rest : List Transition) (entry : StateEntry)
    (hent : dict_get m t.source_name = some entry)
    (h2 : NameClashFree m (t :: rest))
    (h4 : ((t :: rest).map fun t => (t.source_name, t.name)).Nodup) :
    NameClashFree (add_transition_unchecked m t) rest := by
  intro t2 ht2 e2 he2
  by_cases hss : t2.source_name = t.source_name
  · rw [hss, dict_get_add_transition_unchecked_src m t entry hent] at he2
    have he2e : e2 = { entry with
        transitions := entry.transitions ++ [(t.name, t)],
        destination_states := entry.destination_states ++ [(t.destination_name, t)] } :=
      (Option.some.injEq _ _ ▸ he2).symm
    have hn2 := h2 t2 (by simp [ht2]) entry (hss ▸ hent)
    have hname : (t.source_name, t.name) ∉ rest.map fun t => (t.source_name, t.name) :=
      (List.nodup_cons.mp (by simpa using h4)).1
    have hnn : t.name ≠ t2.name := by
      intro hneq
      apply hname
      have : (t2.source_name, t2.name) ∈ rest.map fun t => (t.source_name, t.name) :=
        List.mem_map_of_mem _ ht2
      rwa [hss, ← hneq] at this
    subst he2e
    simp only [dict_get_append, hn2]
    simp [dict_get, hnn]
  · rw [dict_get_add_transition_unchecked_ne m t t2.source_name hss] at he2
    exact h2 t2 (by simp [ht2]) e2 he2

theorem add_transitions_ok_of_valid (ts : List Transition) (m : List (String × StateEntry))
    (h1 : EndpointsValid m ts)
    (h2e : EdgeClashFree m ts)
    (h2n : NameClashFree m ts)
    (h3 : (ts.map fun t => (t.source_name, t.destination_name)).Nodup)
    (h4 : (ts.map fun t => (t.source_name, t.name)).Nodup) :
    add_transitions m ts = .ok (add_all_unchecked m ts) := by
  induction ts generalizing m with
  | nil => simp [add_transitions, add_all_unchecked]
  | cons t rest ih =>
      obtain ⟨hsrc, hdst⟩ := h1 t (by simp)
      obtain ⟨entry, hent⟩ := Option.isSome_iff_exists.mp hsrc
      have hd := h2e t (by simp) entry hent
      have hn := h2n t (by simp) entry hent
      rw [add_transitions, validate_and_add_transition_ok_of m t entry hent hdst hd hn]
      rw [add_all_unchecked]
      exact ih _ (endpointsValid_step m t rest h1)
        (edgeClashFree_step m t rest entry hent h2e h3)
        (nameClashFree_step m t rest entry hent h2n h4)
        (List.nodup_cons.mp h3).2 (List.nodup_cons.mp h4).2

/-! ### Failure of construction on invalid input -/

theorem add_states_fail (states : List State) (m : List (String × StateEntry))
    (h : (∃ s ∈ states, (dict_get m s.name).isSome) ∨ ¬ (states.map State.name).Nodup) :
    ∃ n, add_states m states = .error (Err.duplicateState n) := by
  induction states generalizing m with
  | nil =>
      rcases h with ⟨s, hs, _⟩ | h
      · exact absurd hs (by simp)
      · exact absurd (by simp) h
  | cons s rest ih =>
      by_cases hg : (dict_get m s.name).isSome
      · obtain ⟨v, hv⟩ := Option.isSome_iff_exists.mp hg
        exact ⟨s.name, by simp [add_states, validate_and_add_state, hv]⟩
      · have hgn : dict_get m s.name = none := Option.not_isSome_iff_eq_none.mp hg
        have step : add_states m (s :: rest) =
            add_states (m ++ [(s.name, ⟨s, [], []⟩)]) rest := by
          simp [add_states, validate_and_add_state, hgn]
        rw [step]
        apply ih
        rcases h with ⟨s2, hs2, hsome2⟩ | hnd
        · rcases List.mem_cons.mp hs2 with rfl | hs2r
          · exact absurd hsome2 hg
          · refine Or.inl ⟨s2, hs2r, ?_⟩
            obtain ⟨v, hv⟩ := Option.isSome_iff_exists.mp hsome2
            rw [dict_get_append, hv]
            rfl
        · rw [List.map_cons, List.nodup_cons] at hnd
          by_cases hmem : s.name ∈ rest.map State.name
          · obtain ⟨s2, hs2r, hs2n⟩ := List.mem_map.mp hmem
            refine Or.inl ⟨s2, hs2r, ?_⟩
            rw [hs2n, dict_get_append, hgn]
            simp [dict_get]
          · exact Or.inr fun hh => hnd ⟨hmem, hh⟩

theorem add_transitions_fail_endpoint (ts : List Transition) (m : List (String × StateEntry))
    (h2e : EdgeClashFree m ts) (h2n : NameClashFree m ts)
    (h3 : (ts.map fun t => (t.source_name, t.destination_name)).Nodup)
    (h4 : (ts.map fun t => (t.source_name, t.name)).Nodup)
    (hbad : ∃ t ∈ ts, ¬ (dict_get m t.source_name).isSome ∨
      ¬ (dict_get m t.destination_name).isSome) :
    (∃ s n, add_transitions m ts = .error (Err.invalidSourceState s n)) ∨
    (∃ d n, add_transitions m ts = .error (Err.invalidDestinationState d n)) := by
  induction ts generalizing m with
  | nil => exact absurd hbad (by simp)
  | cons t rest ih =>
      by_cases hsrc : (dict_get m t.source_name).isSome
      · obtain ⟨entry, hent⟩ := Option.isSome_iff_exists.mp hsrc
        by_cases hdst : (dict_get m t.destination_name).isSome
        · have hd := h2e t (by simp) entry hent
          have hn := h2n t (by simp) entry hent
          rw [add_transitions, validate_and_add_transition_ok_of m t entry hent hdst hd hn]
          apply ih _ (edgeClashFree_step m t rest entry hent h2e h3)
            (nameClashFree_step m t rest entry hent h2n h4)
            (List.nodup_cons.mp h3).2 (List.nodup_cons.mp h4).2
          obtain ⟨t2, ht2, hbad2⟩ := hbad
          rcases List.mem_cons.mp ht2 with rfl | ht2r
          · rcases hbad2 with hb | hb
            · exact absurd hsrc hb
            · exact absurd hdst hb
          · refine ⟨t2, ht2r, ?_⟩
            rwa [dict_get_isSome_add_transition_unchecked,
              dict_get_isSome_add_transition_unchecked]
        · refine Or.inr ⟨t.destination_name, t.name, ?_⟩
          simp [add_transitions, validate_and_add_transition, hent,
            FSM.is_valid_state_map, hdst]
      · have hgn : dict_get m t.source_name = none := Option.not_isSome_iff_eq_none.mp hsrc
        exact Or.inl ⟨t.source_name, t.name,
          by simp [add_transitions, validate_and_add_transition, hgn]⟩

theorem add_transitions_fail_edge (ts : List Transition) (m : List (String × StateEntry))
    (h1 : EndpointsValid m ts) (h2n : NameClashFree m ts)
    (h4 : (ts.map fun t => (t.source_name, t.name)).Nodup)
    (hbad : EdgeBad m ts) :
    ∃ s d, add_transitions m ts = .error (Err.duplicateEdge s d) := by
  induction ts generalizing m with
  | nil =>
      rcases hbad with ⟨t, ht, _⟩ | hb
      · exact absurd ht (by simp)
      · exact absurd (by simp) hb
  | cons t rest ih =>
      obtain ⟨hsrc, hdst⟩ := h1 t (by simp)
      obtain ⟨entry, hent⟩ := Option.isSome_iff_exists.mp hsrc
      by_cases hd : (dict_get entry.destination_states t.destination_name).isSome
      · exact ⟨t.source_name, t.destination_name,
          by simp [add_transitions, validate_and_add_transition, hent,
            FSM.is_valid_state_map, hdst, hd]⟩
      · have hdn : dict_get entry.destination_states t.destination_name = none :=
          Option.not_isSome_iff_eq_none.mp hd
        have hn := h2n t (by simp) entry hent
        rw [add_transitions, validate_and_add_transition_ok_of m t entry hent hdst hdn hn]
        apply ih _ (endpointsValid_step m t rest h1)
          (nameClashFree_step m t rest entry hent h2n h4)
          (List.nodup_cons.mp h4).2
        rcases hbad with ⟨t2, ht2, e2, hent2, hsome2⟩ | hnodup
        · rcases List.mem_cons.mp ht2 with rfl | ht2r
          · rw [hent] at hent2
            cases hent2
            exact absurd hsome2 hd
          · refine Or.inl ⟨t2, ht2r, ?_⟩
            by_cases hss : t2.source_name = t.source_name
            · have he2 : e2 = entry := by
                rw [hss, hent] at hent2
                cases hent2
                rfl
              subst he2
              refine ⟨_, by rw [hss]; exact dict_get_add_transition_unchecked_src m t e2 hent, ?_⟩
              obtain ⟨v, hv⟩ := Option.isSome_iff_exists.mp hsome2
              simp only [dict_get_append, hv]
              rfl
            · exact ⟨e2, by rwa [dict_get_add_transition_unchecked_ne m t _ hss], hsome2⟩
        · rw [List.map_cons, List.nodup_cons] at hnodup
          by_cases hmem : (t.source_name, t.destination_name) ∈
              rest.map fun t => (t.source_name, t.destination_name)
          · obtain ⟨t2, ht2r, hp⟩ := List.mem_map.mp hmem
            obtain ⟨hp1, hp2⟩ := Prod.mk.injEq _ _ _ _ ▸ hp
            refine Or.inl ⟨t2, ht2r, _,
              by rw [hp1]; exact dict_get_add_transition_unchecked_src m t entry hent, ?_⟩
            simp only [dict_get_append, hp2, hdn]
            simp [dict_get]
          · exact Or.inr fun hh => hnodup ⟨hmem, hh⟩

theorem add_transitions_fail_name (ts : List Transition) (m : List (String × StateEntry))
    (h1 : EndpointsValid m ts) (h2e : EdgeClashFree m ts)
    (h3 : (ts.map fun t => (t.source_name, t.destination_name)).Nodup)
    (hbad : NameBad m ts) :
    ∃ n s, add_transitions m ts = .error (Err.duplicateTransitionName n s) := by
  induction ts generalizing m with
  | nil =>
      rcases hbad with ⟨t, ht, _⟩ | hb
      · exact absurd ht (by simp)
      · exact absurd (by simp) hb
  | cons t rest ih =>
      obtain ⟨hsrc, hdst⟩ := h1 t (by simp)
      obtain ⟨entry, hent⟩ := Option.isSome_iff_exists.mp hsrc
      have hdn := h2e t (by simp) entry hent
      by_cases hn : (dict_get entry.transitions t.name).isSome
      · exact ⟨t.name, t.source_name,
          by simp [add_transitions, validate_and_add_transition, hent,
            FSM.is_valid_state_map, hdst, hdn, hn]⟩
      · have hnn : dict_get entry.transitions t.name = none :=
          Option.not_isSome_iff_eq_none.mp hn
        rw [add_transitions, validate_and_add_transition_ok_of m t entry hent hdst hdn hnn]
        apply ih _ (endpointsValid_step m t rest h1)
          (edgeClashFree_step m t rest entry hent h2e h3)
          (List.nodup_cons.mp h3).2
        rcases hbad with ⟨t2, ht2, e2, hent2, hsome2⟩ | hnodup
        · rcases List.mem_cons.mp ht2 with rfl | ht2r
          · rw [hent] at hent2
            cases hent2
            exact absurd hsome2 hn
          · refine Or.inl ⟨t2, ht2r, ?_⟩
            by_cases hss : t2.source_name = t.source_name
            · have he2 : e2 = entry := by
                rw [hss, hent] at hent2
                cases hent2
                rfl
              subst he2
              refine ⟨_, by rw [hss]; exact dict_get_add_transition_unchecked_src m t e2 hent, ?_⟩
              obtain ⟨v, hv⟩ := Option.isSome_iff_exists.mp hsome2
              simp only [dict_get_append, hv]
              rfl
            · exact ⟨e2, by rwa [dict_get_add_transition_unchecked_ne m t _ hss], hsome2⟩
        · rw [List.map_cons, List.nodup_cons] at hnodup
          by_cases hmem : (t.source_name, t.name) ∈ rest.map fun t => (t.source_name, t.name)
          · obtain ⟨t2, ht2r, hp⟩ := List.mem_map.mp hmem
            obtain ⟨hp1, hp2⟩ := Prod.mk.injEq _ _ _ _ ▸ hp
            refine Or.inl ⟨t2, ht2r, _,
              by rw [hp1]; exact dict_get_add_transition_unchecked_src m t entry hent, ?_⟩
            simp only [dict_get_append, hp2, hnn]
            simp [dict_get]
          · exact Or.inr fun hh => hnodup ⟨hmem, hh⟩

/-! ### Claim C1: valid input constructs, current state is the initial state -/

/-- C1: for every valid construction input — unique state names, registered
transition endpoints, no duplicate ordered edges, transition names unique per
source, and a non-empty registered initial state name — `FSM.__init__`
succeeds and the `state` property returns the initial state name. -/
theorem claim_C1_valid_construction (initial : String) (states : List State)
    (ts : List Transition) (h : SpecValidInput initial states ts) :
    ∃ fsm, FSM.new initial states ts = .ok fsm ∧ fsm.state = initial := by
  obtain ⟨hnd, hends, hedges, hnames, hne, hmem⟩ := h
  have hstates : add_states [] states = .ok (base_map states) := by
    have := add_states_ok_of_valid states [] hnd (by intro s _; rfl)
    simpa using this
  have htrans : add_transitions (base_map states) ts =
      .ok (add_all_unchecked (base_map states) ts) := by
    apply add_transitions_ok_of_valid
    · intro t ht
      constructor
      · rw [dict_get_isSome_iff_mem, base_map_keys]
        exact (hends t ht).1
      · rw [dict_get_isSome_iff_mem, base_map_keys]
        exact (hends t ht).2
    · intro t ht e he
      rw [(dict_get_base_map_empty states t.source_name e he).2]
      rfl
    · intro t ht e he
      rw [(dict_get_base_map_empty states t.source_name e he).1]
      rfl
    · exact hedges
    · exact hnames
  have hsome : (dict_get (add_all_unchecked (base_map states) ts) initial).isSome := by
    rw [dict_get_isSome_iff_mem, add_all_unchecked_keys, base_map_keys]
    exact hmem
  obtain ⟨v, hv⟩ := Option.isSome_iff_exists.mp hsome
  refine ⟨⟨add_all_unchecked (base_map states) ts, initial⟩, ?_, rfl⟩
  simp only [FSM.new, hstates, htrans]
  rw [if_neg]
  rintro (h1 | h2)
  · exact hne h1
  · rw [hv] at h2
    simp at h2

/-- Witness for C1: the spec's §8 scenario — states A, B, C with edges
A→A (t1), A→B (t2), B→C (t3), C→A (t4) and initial state A — is a valid
input, and construction yields an FSM whose current state is A. -/
theorem claim_C1_valid_construction_witness :
    ∃ fsm, FSM.new "A"
      [⟨"A", some 1, some 2⟩, ⟨"B", none, some 3⟩, ⟨"C", none, none⟩]
      [⟨"t1", "A", "A", some 10⟩, ⟨"t2", "A", "B", none⟩,
       ⟨"t3", "B", "C", some 11⟩, ⟨"t4", "C", "A", none⟩] = .ok fsm ∧
      fsm.state = "A" :=
  claim_C1_valid_construction "A"
    [⟨"A", some 1, some 2⟩, ⟨"B", none, some 3⟩, ⟨"C", none, none⟩]
    [⟨"t1", "A", "A", some 10⟩, ⟨"t2", "A", "B", none⟩,
     ⟨"t3", "B", "C", some 11⟩, ⟨"t4", "C", "A", none⟩] (by decide)

/-! ### Claim C2: invalid input fails construction with the matching error -/

/-- C2: construction on an input violating one of invariants 1–5 fails —
returning an error, so no FSM instance (not even partial) is observable — and
the error is the one of the taxonomy matching the violated invariant
(the Python code raises `FSMException` with a distinct message per raise
site; each `Err` constructor is one raise site): a duplicate state name gives
the duplicate-state error; with unique state names and no duplicate
edges/names, an unregistered transition endpoint gives an unknown-state
error; with unique state names, registered endpoints and unique transition
names per source, a duplicate ordered edge gives the duplicate-edge error;
with unique state names, registered endpoints and no duplicate edges, a
duplicate transition name per source gives the duplicate-name error; and on
an otherwise fully valid structure, an empty or unregistered initial state
name gives the invalid-initial-state error. -/
theorem claim_C2_invalid_construction (initial : String) (states : List State)
    (ts : List Transition) :
    (¬ (states.map State.name).Nodup →
      ∃ n, FSM.new initial states ts = .error (Err.duplicateState n)) ∧
    ((states.map State.name).Nodup →
      (ts.map fun t => (t.source_name, t.destination_name)).Nodup →
      (ts.map fun t => (t.source_name, t.name)).Nodup →
      (∃ t ∈ ts, t.source_name ∉ states.map State.name ∨
        t.destination_name ∉ states.map State.name) →
      (∃ s n, FSM.new initial states ts = .error (Err.invalidSourceState s n)) ∨
      (∃ d n, FSM.new initial states ts = .error (Err.invalidDestinationState d n))) ∧
    ((states.map State.name).Nodup →
      (∀ t ∈ ts, t.source_name ∈ states.map State.name ∧
        t.destination_name ∈ states.map State.name) →
      (ts.map fun t => (t.source_name, t.name)).Nodup →
      ¬ (ts.map fun t => (t.source_name, t.destination_name)).Nodup →
      ∃ s d, FSM.new initial states ts = .error (Err.duplicateEdge s d)) ∧
    ((states.map State.name).Nodup →
      (∀ t ∈ ts, t.source_name ∈ states.map State.name ∧
        t.destination_name ∈ states.map State.name) →
      (ts.map fun t => (t.source_name, t.destination_name)).Nodup →
      ¬ (ts.map fun t => (t.source_name, t.name)).Nodup →
      ∃ n s, FSM.new initial states ts = .error (Err.duplicateTransitionName n s)) ∧
    ((states.map State.name).Nodup →
      (∀ t ∈ ts, t.source_name ∈ states.map State.name ∧
        t.destination_name ∈ states.map State.name) →
      (ts.map fun t => (t.source_name, t.destination_name)).Nodup →
      (ts.map fun t => (t.source_name, t.name)).Nodup →
      (initial = "" ∨ initial ∉ states.map State.name) →
      FSM.new initial states ts = .error Err.invalidInitialState) := by
  have hok_states : (states.map State.name).Nodup →
      add_states [] states = .ok (base_map states) := by
    intro hnd
    simpa using add_states_ok_of_valid states [] hnd (by intro s _; rfl)
  have hbe : EdgeClashFree (base_map states) ts := by
    intro t ht e he
    rw [(dict_get_base_map_empty states t.source_name e he).2]
    rfl
  have hbn : NameClashFree (base_map states) ts := by
    intro t ht e he
    rw [(dict_get_base_map_empty states t.source_name e he).1]
    rfl
  have hep : (∀ t ∈ ts, t.source_name ∈ states.map State.name ∧
      t.destination_name ∈ states.map State.name) → EndpointsValid (base_map states) ts := by
    intro hends t ht
    constructor
    · rw [dict_get_isSome_iff_mem, base_map_keys]
      exact (hends t ht).1
    · rw [dict_get_isSome_iff_mem, base_map_keys]
      exact (hends t ht).2
  refine ⟨?_, ?_, ?_, ?_, ?_⟩
  · intro hdup
    obtain ⟨n, hn⟩ := add_states_fail states [] (Or.inr hdup)
    exact ⟨n, by simp [FSM.new, hn]⟩
  · intro hnd h3 h4 hbad
    have hstates := hok_states hnd
    have hbad2 : ∃ t ∈ ts, ¬ (dict_get (base_map states) t.source_name).isSome ∨
        ¬ (dict_get (base_map states) t.destination_name).isSome := by
      obtain ⟨t, ht, hb⟩ := hbad
      refine ⟨t, ht, ?_⟩
      rcases hb with hb | hb
      · exact Or.inl (by rw [dict_get_isSome_iff_mem, base_map_keys]; exact hb)
      · exact Or.inr (by rw [dict_get_isSome_iff_mem, base_map_keys]; exact hb)
    rcases add_transitions_fail_endpoint ts (base_map states) hbe hbn h3 h4 hbad2 with
      ⟨s, n, he⟩ | ⟨d, n, he⟩
    · exact Or.inl ⟨s, n, by simp [FSM.new, hstates, he]⟩
    · exact Or.inr ⟨d, n, by simp [FSM.new, hstates, he]⟩
  · intro hnd hends h4 hbadedge
    have hstates := hok_states hnd
    obtain ⟨s, d, he⟩ :=
      add_transitions_fail_edge ts (base_map states) (hep hends) hbn h4 (Or.inr hbadedge)
    exact ⟨s, d, by simp [FSM.new, hstates, he]⟩
  · intro hnd hends h3 hbadname
    have hstates := hok_states hnd
    obtain ⟨n, s, he⟩ :=
      add_transitions_fail_name ts (base_map states) (hep hends) hbe h3 (Or.inr hbadname)
    exact ⟨n, s, by simp [FSM.new, hstates, he]⟩
  · intro hnd hends h3 h4 hbadinit
    have hstates := hok_states hnd
    have htrans := add_transitions_ok_of_valid ts (base_map states) (hep hends) hbe hbn h3 h4
    have hcond : initial = "" ∨
        dict_get (add_all_unchecked (base_map states) ts) initial = none := by
      rcases hbadinit with hb | hb
      · exact Or.inl hb
      · refine Or.inr (Option.not_isSome_iff_eq_none.mp ?_)
        rw [dict_get_isSome_iff_mem, add_all_unchecked_keys, base_map_keys]
        exact hb
    rcases hcond with hc | hc <;> simp [FSM.new, hstates, htrans, hc]

/-- Witness for C2, one concrete instance per conjunct: duplicate state name
A/A; a transition to unregistered X; two A→B edges; two transitions named t
from A; and an unregistered initial state Z. -/
theorem claim_C2_invalid_construction_witness :
    (∃ n, FSM.new "A" [⟨"A", none, none⟩, ⟨"A", none, none⟩] [] =
      .error (Err.duplicateState n)) ∧
    ((∃ s n, FSM.new "A" [⟨"A", none, none⟩] [⟨"t", "A", "X", none⟩] =
        .error (Err.invalidSourceState s n)) ∨
      (∃ d n, FSM.new "A" [⟨"A", none, none⟩] [⟨"t", "A", "X", none⟩] =
        .error (Err.invalidDestinationState d n))) ∧
    (∃ s d, FSM.new "A" [⟨"A", none, none⟩, ⟨"B", none, none⟩]
        [⟨"t", "A", "B", none⟩, ⟨"u", "A", "B", none⟩] =
      .error (Err.duplicateEdge s d)) ∧
    (∃ n s, FSM.new "A" [⟨"A", none, none⟩, ⟨"B", none, none⟩, ⟨"C", none, none⟩]
        [⟨"t", "A", "B", none⟩, ⟨"t", "A", "C", none⟩] =
      .error (Err.duplicateTransitionName n s)) ∧
    FSM.new "Z" [⟨"A", none, none⟩] [] = .error Err.invalidInitialState := by
  refine ⟨?_, ?_, ?_, ?_, ?_⟩
  · exact (claim_C2_invalid_construction "A"
      [⟨"A", none, none⟩, ⟨"A", none, none⟩] []).1 (by decide)
  · exact (claim_C2_invalid_construction "A"
      [⟨"A", none, none⟩] [⟨"t", "A", "X", none⟩]).2.1
      (by decide) (by decide) (by decide) (by decide)
  · exact (claim_C2_invalid_construction "A"
      [⟨"A", none, none⟩, ⟨"B", none, none⟩]
      [⟨"t", "A", "B", none⟩, ⟨"u", "A", "B", none⟩]).2.2.1
      (by decide) (by decide) (by decide) (by decide)
  · exact (claim_C2_invalid_construction "A"
      [⟨"A", none, none⟩, ⟨"B", none, none⟩, ⟨"C", none, none⟩]
      [⟨"t", "A", "B", none⟩, ⟨"t", "A", "C", none⟩]).2.2.2.1
      (by decide) (by decide) (by decide) (by decide)
  · exact (claim_C2_invalid_construction "Z" [⟨"A", none, none⟩] []).2.2.2.2
      (by decide) (by decide) (by decide) (by decide) (by decide)

theorem exit_state_fst (s : State) (beh : Ev → Bool) :
    (s.exit_state beh).1 = s.exitEvents := by
  unfold State.exit_state State.exitEvents
  cases s.before_exit <;> simp

theorem enter_state_fst (s : State) (beh : Ev → Bool) :
    (s.enter_state beh).1 = s.enterEvents := by
  unfold State.enter_state State.enterEvents
  cases s.after_entry <;> simp

theorem transition_execute_fst (t : Transition) (beh : Ev → Bool) :
    (t.execute beh).1 = t.transEvents := by
  unfold Transition.execute Transition.transEvents
  cases t.on_transition <;> simp

theorem exit_state_snd_some (s : State) (beh : Ev → Bool) (e : Err)
    (h : (s.exit_state beh).2 = some e) :
    ∃ hk, s.before_exit = some hk ∧ e = Err.hookRaise (Ev.exitCall s.name hk) := by
  unfold State.exit_state at h
  cases hb : s.before_exit with
  | none => rw [hb] at h; simp at h
  | some hk =>
      rw [hb] at h
      by_cases hbeh : beh (Ev.exitCall s.name hk)
      · simp [hbeh] at h
        exact ⟨hk, rfl, h.symm⟩
      · simp [hbeh] at h

theorem enter_state_snd_some (s : State) (beh : Ev → Bool) (e : Err)
    (h : (s.enter_state beh).2 = some e) :
    ∃ hk, s.after_entry = some hk ∧ e = Err.hookRaise (Ev.enterCall s.name hk) := by
  unfold State.enter_state at h
  cases hb : s.after_entry with
  | none => rw [hb] at h; simp at h
  | some hk =>
      rw [hb] at h
      by_cases hbeh : beh (Ev.enterCall s.name hk)
      · simp [hbeh] at h
        exact ⟨hk, rfl, h.symm⟩
      · simp [hbeh] at h

theorem transition_execute_snd_some (t : Transition) (beh : Ev → Bool) (e : Err)
    (h : (t.execute beh).2 = some e) :
    ∃ hk, t.on_transition = some hk ∧ e = Err.hookRaise (Ev.transCall t.name hk) := by
  unfold Transition.execute at h
  cases hb : t.on_transition with
  | none => rw [hb] at h; simp at h
  | some hk =>
      rw [hb] at h
      by_cases hbeh : beh (Ev.transCall t.name hk)
      · simp [hbeh] at h
        exact ⟨hk, rfl, h.symm⟩
      · simp [hbeh] at h

/-- A successful run of `_execute` produces exactly the exit, transition and
entry hook calls in that order, followed by the state assignment, and moves
the machine to the destination's name, leaving the map untouched. -/
theorem execProtocol_ok (fsm : FSM) (src dst : State) (t : Transition)
    (beh : Ev → Bool) (fsm2 : FSM) (tr : List Ev)
    (h : fsm.execProtocol src dst t beh = (fsm2, tr, none)) :
    tr = src.exitEvents ++ t.transEvents ++ dst.enterEvents ++ [Ev.setState dst.name] ∧
    fsm2 = { fsm with state := dst.name } := by
  unfold FSM.execProtocol at h
  rcases hx : src.exit_state beh with ⟨ev1, oe1⟩
  rw [hx] at h
  cases oe1 with
  | some e => simp at h
  | none =>
      rcases ht : t.execute beh with ⟨ev2, oe2⟩
      rw [ht] at h
      cases oe2 with
      | some e => simp at h
      | none =>
          rcases hn : dst.enter_state beh with ⟨ev3, oe3⟩
          rw [hn] at h
          cases oe3 with
          | some e => simp at h
          | none =>
              simp only [Prod.mk.injEq, and_true] at h
              obtain ⟨h1, h2⟩ := h
              refine ⟨?_, h1.symm⟩
              have e1 : ev1 = src.exitEvents := by rw [← exit_state_fst src beh, hx]
              have e2 : ev2 = t.transEvents := by rw [← transition_execute_fst t beh, ht]
              have e3 : ev3 = dst.enterEvents := by rw [← enter_state_fst dst beh, hn]
              rw [← h2, e1, e2, e3]

/-- A failing run of `_execute`: the error is an unwrapped hook exception,
the machine (including its current state) is exactly as before, and the trace
stops at the raising call — the earlier calls' events remain, no later hook
is called, and no state assignment happens. -/
theorem execProtocol_err (fsm : FSM) (src dst : State) (t : Transition)
    (beh : Ev → Bool) (fsm2 : FSM) (tr : List Ev) (err : Err)
    (h : fsm.execProtocol src dst t beh = (fsm2, tr, some err)) :
    fsm2 = fsm ∧ ∃ ev, err = Err.hookRaise ev ∧
      ((∃ hk, src.before_exit = some hk ∧ ev = Ev.exitCall src.name hk ∧ tr = [ev]) ∨
       (∃ hk, t.on_transition = some hk ∧ ev = Ev.transCall t.name hk ∧
         tr = src.exitEvents ++ [ev]) ∨
       (∃ hk, dst.after_entry = some hk ∧ ev = Ev.enterCall dst.name hk ∧
         tr = src.exitEvents ++ t.transEvents ++ [ev])) := by
  unfold FSM.execProtocol at h
  rcases hx : src.exit_state beh with ⟨ev1, oe1⟩
  rw [hx] at h
  have e1 : ev1 = src.exitEvents := by rw [← exit_state_fst src beh, hx]
  cases oe1 with
  | some e =>
      simp only [Prod.mk.injEq] at h
      obtain ⟨h1, h2, h3⟩ := h
      obtain ⟨hk, hhk, hee⟩ := exit_state_snd_some src beh e (by rw [hx])
      refine ⟨h1.symm, Ev.exitCall src.name hk,
        by rw [← Option.some.inj h3]; exact hee, Or.inl ⟨hk, hhk, rfl, ?_⟩⟩
      rw [← h2, e1]
      unfold State.exitEvents
      rw [hhk]
  | none =>
      rcases ht : t.execute beh with ⟨ev2, oe2⟩
      rw [ht] at h
      have e2 : ev2 = t.transEvents := by rw [← transition_execute_fst t beh, ht]
      cases oe2 with
      | some e =>
          simp only [Prod.mk.injEq] at h
          obtain ⟨h1, h2, h3⟩ := h
          obtain ⟨hk, hhk, hee⟩ := transition_execute_snd_some t beh e (by rw [ht])
          refine ⟨h1.symm, Ev.transCall t.name hk,
            by rw [← Option.some.inj h3]; exact hee, Or.inr (Or.inl ⟨hk, hhk, rfl, ?_⟩)⟩
          rw [← h2, e1, e2]
          unfold Transition.transEvents
          rw [hhk]
      | none =>
          rcases hn : dst.enter_state beh with ⟨ev3, oe3⟩
          rw [hn] at h
          have e3 : ev3 = dst.enterEvents := by rw [← enter_state_fst dst beh, hn]
          cases oe3 with
          | some e =>
              simp only [Prod.mk.injEq] at h
              obtain ⟨h1, h2, h3⟩ := h
              obtain ⟨hk, hhk, hee⟩ := enter_state_snd_some dst beh e (by rw [hn])
              refine ⟨h1.symm, Ev.enterCall dst.name hk,
                by rw [← Option.some.inj h3]; exact hee, Or.inr (Or.inr ⟨hk, hhk, rfl, ?_⟩)⟩
              rw [← h2, e1, e2, e3]
              unfold State.enterEvents
              rw [hhk]
          | none => simp at h

/-! ### The lookup structure is never written after construction -/

theorem execProtocol_map (fsm : FSM) (src dst : State) (t : Transition) (beh : Ev → Bool) :
    (fsm.execProtocol src dst t beh).1.map = fsm.map := by
  unfold FSM.execProtocol
  rcases hx : src.exit_state beh with ⟨ev1, oe1⟩
  cases oe1 with
  | some e => rfl
  | none =>
      rcases ht : t.execute beh with ⟨ev2, oe2⟩
      cases oe2 with
      | some e => rfl
      | none =>
          rcases hn : dst.enter_state beh with ⟨ev3, oe3⟩
          cases oe3 with
          | some e => rfl
          | none => rfl

theorem execute_transition_map (fsm : FSM) (tname : String) (beh : Ev → Bool) :
    (fsm.execute_transition tname beh).1.map = fsm.map := by
  unfold FSM.execute_transition
  cases h1 : dict_get fsm.map fsm.state with
  | none => rfl
  | some entry =>
      dsimp only
      cases h2 : dict_get entry.transitions tname with
      | none => rfl
      | some t =>
          dsimp only
          cases h3 : dict_get fsm.map t.destination_name with
          | none => rfl
          | some destEntry => exact execProtocol_map fsm entry.state destEntry.state t beh

theorem execute_transition_to_map (fsm : FSM) (dname : String) (beh : Ev → Bool) :
    (fsm.execute_transition_to dname beh).1.map = fsm.map := by
  unfold FSM.execute_transition_to
  by_cases hv : FSM.is_valid_state_map fsm.map dname
  · simp only [hv, not_true_eq_false, if_false]
    cases h1 : dict_get fsm.map fsm.state with
    | none => rfl
    | some entry =>
        dsimp only
        cases h2 : dict_get entry.destination_states dname with
        | none => rfl
        | some t =>
            dsimp only
            cases h3 : dict_get fsm.map dname with
            | none => rfl
            | some destEntry => exact execProtocol_map fsm entry.state destEntry.state t beh
  · simp [hv]

/-! ### Successful execution, characterized -/

/-- A successful `execute_transition` call resolves the transition from the
current state's name-keyed map and runs the protocol: full hook trace then
the state assignment. -/
theorem execute_transition_ok_spec (fsm : FSM) (beh : Ev → Bool)
    (tname : String) (fsm2 : FSM) (tr : List Ev)
    (h : fsm.execute_transition tname beh = (fsm2, tr, none)) :
    ∃ entry t destEntry,
      dict_get fsm.map fsm.state = some entry ∧
      dict_get entry.transitions tname = some t ∧
      dict_get fsm.map t.destination_name = some destEntry ∧
      tr = entry.state.exitEvents ++ t.transEvents ++ destEntry.state.enterEvents ++
        [Ev.setState destEntry.state.name] ∧
      fsm2 = { fsm with state := destEntry.state.name } := by
  unfold FSM.execute_transition at h
  cases h1 : dict_get fsm.map fsm.state with
  | none => rw [h1] at h; simp at h
  | some entry =>
      rw [h1] at h
      dsimp only at h
      cases h2 : dict_get entry.transitions tname with
      | none => rw [h2] at h; simp at h
      | some t =>
          rw [h2] at h
          dsimp only at h
          cases h3 : dict_get fsm.map t.destination_name with
          | none => rw [h3] at h; simp at h
          | some destEntry =>
              rw [h3] at h
              dsimp only at h
              obtain ⟨htr, hfsm⟩ :=
                execProtocol_ok fsm entry.state destEntry.state t beh fsm2 tr h
              exact ⟨entry, t, destEntry, rfl, h2, h3, htr, hfsm⟩

/-- A successful `execute_transition_to` call resolves the transition from
the current state's destination-keyed map and runs the protocol. -/
theorem execute_transition_to_ok_spec (fsm : FSM) (beh : Ev → Bool)
    (dname : String) (fsm2 : FSM) (tr : List Ev)
    (h : fsm.execute_transition_to dname beh = (fsm2, tr, none)) :
    ∃ entry t destEntry,
      dict_get fsm.map fsm.state = some entry ∧
      dict_get entry.destination_states dname = some t ∧
      dict_get fsm.map dname = some destEntry ∧
      tr = entry.state.exitEvents ++ t.transEvents ++ destEntry.state.enterEvents ++
        [Ev.setState destEntry.state.name] ∧
      fsm2 = { fsm with state := destEntry.state.name } := by
  unfold FSM.execute_transition_to at h
  by_cases hv : FSM.is_valid_state_map fsm.map dname
  · simp only [hv, not_true_eq_false, if_false] at h
    cases h1 : dict_get fsm.map fsm.state with
    | none => rw [h1] at h; simp at h
    | some entry =>
        rw [h1] at h
        dsimp only at h
        cases h2 : dict_get entry.destination_states dname with
        | none => rw [h2] at h; simp at h
        | some t =>
            rw [h2] at h
            dsimp only at h
            cases h3 : dict_get fsm.map dname with
            | none => rw [h3] at h; simp at h
            | some destEntry =>
                rw [h3] at h
                dsimp only at h
                obtain ⟨htr, hfsm⟩ :=
                  execProtocol_ok fsm entry.state destEntry.state t beh fsm2 tr h
                exact ⟨entry, t, destEntry, rfl, h2, rfl, htr, hfsm⟩
  · simp [hv] at h

/-! ### Claim C3: hook ordering of a successful execution -/

/-- C3: a successful transition execution, through either entry point,
produces exactly the source's exit-hook call, then the transition-hook call,
then the destination's entry-hook call (each exactly once, in that order, and
only for the hooks that are present), followed by the update of the current
state name to the destination's name. -/
theorem claim_C3_hook_order (fsm : FSM) (beh : Ev → Bool) :
    (∀ tname fsm2 tr, fsm.execute_transition tname beh = (fsm2, tr, none) →
      ∃ entry t destEntry,
        dict_get fsm.map fsm.state = some entry ∧
        dict_get entry.transitions tname = some t ∧
        dict_get fsm.map t.destination_name = some destEntry ∧
        tr = entry.state.exitEvents ++ t.transEvents ++ destEntry.state.enterEvents ++
          [Ev.setState destEntry.state.name] ∧
        fsm2 = { fsm with state := destEntry.state.name }) ∧
    (∀ dname fsm2 tr, fsm.execute_transition_to dname beh = (fsm2, tr, none) →
      ∃ entry t destEntry,
        dict_get fsm.map fsm.state = some entry ∧
        dict_get entry.destination_states dname = some t ∧
        dict_get fsm.map dname = some destEntry ∧
        tr = entry.state.exitEvents ++ t.transEvents ++ destEntry.state.enterEvents ++
          [Ev.setState destEntry.state.name] ∧
        fsm2 = { fsm with state := destEntry.state.name }) :=
  ⟨fun tname fsm2 tr h => execute_transition_ok_spec fsm beh tname fsm2 tr h,
   fun dname fsm2 tr h => execute_transition_to_ok_spec fsm beh dname fsm2 tr h⟩

/-- Witness for C3: on the demo machine, executing transition `t` with no
hook raising succeeds; the theorem then exhibits the resolved entries and the
trace exit(A,1), transition(t,5), enter(B,4), set-state(B). -/
theorem claim_C3_hook_order_witness :
    ∃ entry t destEntry,
      dict_get demoFSM.map demoFSM.state = some entry ∧
      dict_get entry.transitions "t" = some t ∧
      dict_get demoFSM.map t.destination_name = some destEntry ∧
      [Ev.exitCall "A" 1, Ev.transCall "t" 5, Ev.enterCall "B" 4, Ev.setState "B"] =
        entry.state.exitEvents ++ t.transEvents ++ destEntry.state.enterEvents ++
          [Ev.setState destEntry.state.name] ∧
      ({ demoFSM with state := "B" } : FSM) = { demoFSM with state := destEntry.state.name } :=
  (claim_C3_hook_order demoFSM (fun _ => false)).1 "t" { demoFSM with state := "B" }
    [Ev.exitCall "A" 1, Ev.transCall "t" 5, Ev.enterCall "B" 4, Ev.setState "B"]
    (by decide)

/-! ### Claim C4: a raising hook aborts the protocol, state unchanged -/

/-- C4: if a hook raises during the execution protocol (through either entry
point), the exception propagates unwrapped (`Err.hookRaise` of the raising
call, never an engine error), the machine — in particular
`current_state_name` — is exactly as before the call, and the trace stops at
the raising call: events of the earlier steps remain (no rollback), no later
hook runs, and the state assignment (which comes only after all three hooks)
never happens. -/
theorem claim_C4_hook_exception (fsm : FSM) (beh : Ev → Bool) :
    (∀ tname fsm2 tr ev,
      fsm.execute_transition tname beh = (fsm2, tr, some (Err.hookRaise ev)) →
      fsm2 = fsm ∧
      ∃ entry t destEntry,
        dict_get fsm.map fsm.state = some entry ∧
        dict_get entry.transitions tname = some t ∧
        dict_get fsm.map t.destination_name = some destEntry ∧
        ((∃ hk, entry.state.before_exit = some hk ∧
            ev = Ev.exitCall entry.state.name hk ∧ tr = [ev]) ∨
         (∃ hk, t.on_transition = some hk ∧ ev = Ev.transCall t.name hk ∧
            tr = entry.state.exitEvents ++ [ev]) ∨
         (∃ hk, destEntry.state.after_entry = some hk ∧
            ev = Ev.enterCall destEntry.state.name hk ∧
            tr = entry.state.exitEvents ++ t.transEvents ++ [ev]))) ∧
    (∀ dname fsm2 tr ev,
      fsm.execute_transition_to dname beh = (fsm2, tr, some (Err.hookRaise ev)) →
      fsm2 = fsm ∧
      ∃ entry t destEntry,
        dict_get fsm.map fsm.state = some entry ∧
        dict_get entry.destination_states dname = some t ∧
        dict_get fsm.map dname = some destEntry ∧
        ((∃ hk, entry.state.before_exit = some hk ∧
            ev = Ev.exitCall entry.state.name hk ∧ tr = [ev]) ∨
         (∃ hk, t.on_transition = some hk ∧ ev = Ev.transCall t.name hk ∧
            tr = entry.state.exitEvents ++ [ev]) ∨
         (∃ hk, destEntry.state.after_entry = some hk ∧
            ev = Ev.enterCall destEntry.state.name hk ∧
            tr = entry.state.exitEvents ++ t.transEvents ++ [ev]))) := by
  constructor
  · intro tname fsm2 tr ev h
    unfold FSM.execute_transition at h
    cases h1 : dict_get fsm.map fsm.state with
    | none => rw [h1] at h; simp at h
    | some entry =>
        rw [h1] at h
        dsimp only at h
        cases h2 : dict_get entry.transitions tname with
        | none => rw [h2] at h; simp at h
        | some t =>
            rw [h2] at h
            dsimp only at h
            cases h3 : dict_get fsm.map t.destination_name with
            | none => rw [h3] at h; simp at h
            | some destEntry =>
                rw [h3] at h
                dsimp only at h
                obtain ⟨hfsm, ev2, hev, hcase⟩ :=
                  execProtocol_err fsm entry.state destEntry.state t beh fsm2 tr _ h
                cases Err.hookRaise.inj hev.symm
                exact ⟨hfsm, entry, t, destEntry, rfl, h2, h3, hcase⟩
  · intro dname fsm2 tr ev h
    unfold FSM.execute_transition_to at h
    by_cases hv : FSM.is_valid_state_map fsm.map dname
    · simp only [hv, not_true_eq_false, if_false] at h
      cases h1 : dict_get fsm.map fsm.state with
      | none => rw [h1] at h; simp at h
      | some entry =>
          rw [h1] at h
          dsimp only at h
          cases h2 : dict_get entry.destination_states dname with
          | none => rw [h2] at h; simp at h
          | some t =>
              rw [h2] at h
              dsimp only at h
              cases h3 : dict_get fsm.map dname with
              | none => rw [h3] at h; simp at h
              | some destEntry =>
                  rw [h3] at h
                  dsimp only at h
                  obtain ⟨hfsm, ev2, hev, hcase⟩ :=
                    execProtocol_err fsm entry.state destEntry.state t beh fsm2 tr _ h
                  cases Err.hookRaise.inj hev.symm
                  exact ⟨hfsm, entry, t, destEntry, rfl, h2, rfl, hcase⟩
    · simp [hv] at h

/-- Witness for C4: on the demo machine, with the transition hook (hook 5)
raising, executing `t` leaves the machine unchanged and the trace stops after
exit(A,1) and the raising transition call; no entry hook and no state
assignment occur. -/
theorem claim_C4_hook_exception_witness :
    demoFSM = demoFSM ∧
    ∃ entry t destEntry,
      dict_get demoFSM.map demoFSM.state = some entry ∧
      dict_get entry.transitions "t" = some t ∧
      dict_get demoFSM.map t.destination_name = some destEntry ∧
      ((∃ hk, entry.state.before_exit = some hk ∧
          Ev.transCall "t" 5 = Ev.exitCall entry.state.name hk ∧
          [Ev.exitCall "A" 1, Ev.transCall "t" 5] = [Ev.transCall "t" 5]) ∨
       (∃ hk, t.on_transition = some hk ∧ Ev.transCall "t" 5 = Ev.transCall t.name hk ∧
          [Ev.exitCall "A" 1, Ev.transCall "t" 5] =
            entry.state.exitEvents ++ [Ev.transCall "t" 5]) ∨
       (∃ hk, destEntry.state.after_entry = some hk ∧
          Ev.transCall "t" 5 = Ev.enterCall destEntry.state.name hk ∧
          [Ev.exitCall "A" 1, Ev.transCall "t" 5] =
            entry.state.exitEvents ++ t.transEvents ++ [Ev.transCall "t" 5])) :=
  (claim_C4_hook_exception demoFSM (fun e => e == Ev.transCall "t" 5)).1 "t" demoFSM
    [Ev.exitCall "A" 1, Ev.transCall "t" 5] (Ev.transCall "t" 5) (by decide)

/-! ### Claim C5: failure modes of `execute_transition_to` -/

/-- C5: `execute_transition_to` fails with the unknown-state error when the
destination is not registered, and with the unknown-transition error when the
destination is registered but the current state has no direct edge to it
(whatever other paths exist); in both cases the machine is returned unchanged
and the empty trace shows no hook was called. -/
theorem claim_C5_execute_to_failures (fsm : FSM) (beh : Ev → Bool) (dname : String) :
    (dict_get fsm.map dname = none →
      fsm.execute_transition_to dname beh =
        (fsm, [], some (Err.invalidStateInExecute dname))) ∧
    (∀ entry, (dict_get fsm.map dname).isSome →
      dict_get fsm.map fsm.state = some entry →
      dict_get entry.destination_states dname = none →
      fsm.execute_transition_to dname beh =
        (fsm, [], some (Err.invalidTransitionBetween fsm.state dname))) := by
  constructor
  · intro h
    simp [FSM.execute_transition_to, FSM.is_valid_state_map, h]
  · intro entry hv h1 h2
    simp [FSM.execute_transition_to, FSM.is_valid_state_map, hv, h1, h2]

/-- Witness for C5 on the demo machine at A: destination X is unregistered
(unknown-state error); destination A is registered but A has no edge to
itself (unknown-transition error); both leave the machine unchanged with an
empty trace. -/
theorem claim_C5_execute_to_failures_witness :
    (demoFSM.execute_transition_to "X" (fun _ => false) =
      (demoFSM, [], some (Err.invalidStateInExecute "X"))) ∧
    (demoFSM.execute_transition_to "A" (fun _ => false) =
      (demoFSM, [], some (Err.invalidTransitionBetween demoFSM.state "A"))) :=
  ⟨(claim_C5_execute_to_failures demoFSM (fun _ => false) "X").1 (by decide),
   (claim_C5_execute_to_failures demoFSM (fun _ => false) "A").2 entryA
     (by decide) (by decide) (by decide)⟩

/-! ### Claim C6: failure mode of `execute_transition` -/

/-- C6: `execute_transition` fails with the unknown-transition error whenever
the given name is not among the current state's outgoing transitions — the
lookup consults only the current state's own name-keyed map, so a transition
of that name sourced anywhere else is irrelevant — and on failure the machine
is returned unchanged and the empty trace shows no hook was called. -/
theorem claim_C6_execute_by_name_failure (fsm : FSM) (beh : Ev → Bool)
    (tname : String) (entry : StateEntry)
    (h1 : dict_get fsm.map fsm.state = some entry)
    (h2 : dict_get entry.transitions tname = none) :
    fsm.execute_transition tname beh =
      (fsm, [], some (Err.invalidTransitionFrom tname fsm.state)) := by
  simp [FSM.execute_transition, h1, h2]

/-- Witness for C6 on the demo machine at A: the name `u` labels only the
B→A transition, so executing it from A fails with the unknown-transition
error, machine unchanged, no hooks run. -/
theorem claim_C6_execute_by_name_failure_witness :
    demoFSM.execute_transition "u" (fun _ => false) =
      (demoFSM, [], some (Err.invalidTransitionFrom "u" demoFSM.state)) :=
  claim_C6_execute_by_name_failure demoFSM (fun _ => false) "u" entryA
    (by decide) (by decide)

/-! ### Claim C7: self-transitions run the full protocol and stay put -/

/-- C7: a self-transition is permitted and runs the whole protocol on the one
state: through either entry point, a successful execution of a transition
whose destination is the current state produces that state's exit-hook call,
the transition-hook call and the same state's entry-hook call, in that order,
exactly once each, and the current state afterwards is unchanged. -/
theorem claim_C7_self_transition (fsm : FSM) (beh : Ev → Bool) :
    (∀ tname entry t fsm2 tr,
      dict_get fsm.map fsm.state = some entry →
      entry.state.name = fsm.state →
      dict_get entry.transitions tname = some t →
      t.destination_name = fsm.state →
      fsm.execute_transition tname beh = (fsm2, tr, none) →
      tr = entry.state.exitEvents ++ t.transEvents ++ entry.state.enterEvents ++
        [Ev.setState fsm.state] ∧ fsm2.state = fsm.state) ∧
    (∀ entry t fsm2 tr,
      dict_get fsm.map fsm.state = some entry →
      entry.state.name = fsm.state →
      dict_get entry.destination_states fsm.state = some t →
      fsm.execute_transition_to fsm.state beh = (fsm2, tr, none) →
      tr = entry.state.exitEvents ++ t.transEvents ++ entry.state.enterEvents ++
        [Ev.setState fsm.state] ∧ fsm2.state = fsm.state) := by
  constructor
  · intro tname entry t fsm2 tr h1 hname h2 hdest h
    obtain ⟨entry2, t2, destEntry, g1, g2, g3, htr, hfsm⟩ :=
      execute_transition_ok_spec fsm beh tname fsm2 tr h
    rw [h1] at g1
    cases Option.some.inj g1
    rw [h2] at g2
    cases Option.some.inj g2
    rw [hdest, h1] at g3
    cases Option.some.inj g3
    exact ⟨by rw [htr, hname], by rw [hfsm, hname]⟩
  · intro entry t fsm2 tr h1 hname h2 h
    obtain ⟨entry2, t2, destEntry, g1, g2, g3, htr, hfsm⟩ :=
      execute_transition_to_ok_spec fsm beh fsm.state fsm2 tr h
    rw [h1] at g1
    cases Option.some.inj g1
    rw [h2] at g2
    cases Option.some.inj g2
    rw [h1] at g3
    cases Option.some.inj g3
    exact ⟨by rw [htr, hname], by rw [hfsm, hname]⟩

/-- Witness for C7: executing the self-loop `s` on the one-state machine
runs exit(S,8), transition(s,7), enter(S,9), set-state(S), and the current
state is still S. -/
theorem claim_C7_self_transition_witness :
    [Ev.exitCall "S" 8, Ev.transCall "s" 7, Ev.enterCall "S" 9, Ev.setState "S"] =
      entryS.state.exitEvents ++ tSS.transEvents ++ entryS.state.enterEvents ++
        [Ev.setState selfFSM.state] ∧
    (selfFSM.execute_transition "s" (fun _ => false)).1.state = selfFSM.state :=
  (claim_C7_self_transition selfFSM (fun _ => false)).1 "s" entryS tSS
    (selfFSM.execute_transition "s" (fun _ => false)).1
    [Ev.exitCall "S" 8, Ev.transCall "s" 7, Ev.enterCall "S" 9, Ev.setState "S"]
    (by decide) (by decide) (by decide) (by decide) (by decide)

/-! ### Claim C8: only the current state is ever written after construction -/

/-- C8: after construction, the lookup structure — the state set, both
per-state transition maps, and every registered State and Transition object
they hold — is never modified: whatever a transition execution does (succeed
or fail through either entry point), the machine's map is exactly the one
it started with, so `current_state_name` is the only mutable datum.  (The
current-state query is a pure projection and writes nothing by
construction.) -/
theorem claim_C8_frame (fsm : FSM) (beh : Ev → Bool) (tname dname : String) :
    (fsm.execute_transition tname beh).1.map = fsm.map ∧
    (fsm.execute_transition_to dname beh).1.map = fsm.map :=
  ⟨execute_transition_map fsm tname beh, execute_transition_to_map fsm dname beh⟩

/-! ### Shape of a successfully constructed machine -/

theorem FSM_new_ok_shape (initial : String) (states : List State) (ts : List Transition)
    (fsm : FSM) (h : FSM.new initial states ts = .ok fsm) :
    fsm.map = add_all_unchecked (base_map states) ts ∧ fsm.state = initial := by
  unfold FSM.new at h
  cases hs : add_states [] states with
  | error e => rw [hs] at h; simp at h
  | ok m1 =>
      rw [hs] at h
      dsimp only at h
      cases ht : add_transitions m1 ts with
      | error e => rw [ht] at h; simp at h
      | ok m2 =>
          rw [ht] at h
          dsimp only at h
          by_cases hc : initial = "" ∨ (dict_get m2 initial).isNone
          · rw [if_pos hc] at h
            simp at h
          · rw [if_neg hc] at h
            have hm1 : m1 = base_map states := by
              simpa using add_states_ok_shape states [] m1 hs
            have hm2 : m2 = add_all_unchecked m1 ts := add_transitions_ok_shape ts m1 m2 ht
            cases Except.ok.inj h
            rw [hm2, hm1]
            exact ⟨rfl, rfl⟩

theorem dict_get_add_all_unchecked (ts : List Transition) (m : List (String × StateEntry))
    (k : String) (e : StateEntry) (h : dict_get m k = some e) :
    dict_get (add_all_unchecked m ts) k = some
      { e with
        transitions := e.transitions ++
          (ts.filter (fun t => t.source_name = k)).map (fun t => (t.name, t)),
        destination_states := e.destination_states ++
          (ts.filter (fun t => t.source_name = k)).map (fun t => (t.destination_name, t)) } := by
  induction ts generalizing m e with
  | nil => simpa [add_all_unchecked] using h
  | cons t rest ih =>
      rw [add_all_unchecked]
      by_cases hsk : t.source_name = k
      · have hent : dict_get m t.source_name = some e := by rw [hsk]; exact h
        have hstep := dict_get_add_transition_unchecked_src m t e hent
        rw [hsk] at hstep
        rw [ih (add_transition_unchecked m t) _ hstep]
        simp [List.filter_cons, hsk, List.append_assoc]
      · have hne : k ≠ t.source_name := fun hh => hsk hh.symm
        have hstep : dict_get (add_transition_unchecked m t) k = some e := by
          rw [dict_get_add_transition_unchecked_ne m t k hne]
          exact h
        rw [ih _ _ hstep]
        simp [List.filter_cons, hsk]

/-! ### Claim C9: the two per-state maps index the same edge set -/

/-- C9: in a constructed machine, each state's transition-name-keyed map and
destination-name-keyed map hold exactly the same transitions (here even in
the same order), namely precisely the registered transitions whose source is
that state — so every registered transition appears in both maps under its
source and in no other state's maps — and since no operation ever writes the
lookup structure, the invariant is preserved by every subsequent
operation. -/
theorem claim_C9_dual_index (initial : String) (states : List State) (ts : List Transition)
    (fsm : FSM) (h : FSM.new initial states ts = .ok fsm) :
    (∀ k e, dict_get fsm.map k = some e →
      e.transitions.map Prod.snd = e.destination_states.map Prod.snd ∧
      (∀ t, t ∈ e.transitions.map Prod.snd ↔ t ∈ ts ∧ t.source_name = k)) ∧
    (∀ tname beh, (fsm.execute_transition tname beh).1.map = fsm.map) ∧
    (∀ dname beh, (fsm.execute_transition_to dname beh).1.map = fsm.map) := by
  obtain ⟨hmap, hstate⟩ := FSM_new_ok_shape initial states ts fsm h
  refine ⟨?_, fun tname beh => execute_transition_map fsm tname beh,
    fun dname beh => execute_transition_to_map fsm dname beh⟩
  intro k e he
  rw [hmap] at he
  have hks : (dict_get (base_map states) k).isSome := by
    have h2 : (dict_get (add_all_unchecked (base_map states) ts) k).isSome := by
      rw [he]; rfl
    rwa [dict_get_isSome_iff_mem, add_all_unchecked_keys, ← dict_get_isSome_iff_mem] at h2
  obtain ⟨e0, he0⟩ := Option.isSome_iff_exists.mp hks
  obtain ⟨hte, hde⟩ := dict_get_base_map_empty states k e0 he0
  have hchar := dict_get_add_all_unchecked ts (base_map states) k e0 he0
  rw [he] at hchar
  have he2 : e = { e0 with
      transitions := e0.transitions ++
        (ts.filter (fun t => t.source_name = k)).map (fun t => (t.name, t)),
      destination_states := e0.destination_states ++
        (ts.filter (fun t => t.source_name = k)).map (fun t => (t.destination_name, t)) } :=
    Option.some.inj hchar
  subst he2
  rw [hte, hde]
  constructor
  · simp [List.map_map, Function.comp]
  · intro t
    simp [List.map_map, Function.comp, List.mem_filter]

/-- Witness for C9: constructing the demo machine A⇄B from its two states
and two transitions yields `demoFSM`, whose per-state maps the theorem then
characterizes. -/
theorem claim_C9_dual_index_witness :
    (∀ k e, dict_get demoFSM.map k = some e →
      e.transitions.map Prod.snd = e.destination_states.map Prod.snd ∧
      (∀ t, t ∈ e.transitions.map Prod.snd ↔ t ∈ [tAB, tBA] ∧ t.source_name = k)) ∧
    (∀ tname beh, (demoFSM.execute_transition tname beh).1.map = demoFSM.map) ∧
    (∀ dname beh, (demoFSM.execute_transition_to dname beh).1.map = demoFSM.map) :=
  claim_C9_dual_index "A" [⟨"A", some 1, some 2⟩, ⟨"B", some 3, some 4⟩]
    [tAB, tBA] demoFSM rfl

/-! ### Claim C10: the empty string as a state name versus as initial state -/

/-- C10: a state named by the empty string registers fine and can be a
transition source or destination, but `""` can never be the initial state
name: the falsiness check `not initial_state_name` fires before (and
independently of) the registration lookup, so construction with initial
state `""` fails even when a state named `""` is registered. -/
theorem claim_C10_empty_state_name :
    (∃ fsm, FSM.new "A" [⟨"", none, none⟩, ⟨"A", none, none⟩]
        [⟨"t", "A", "", none⟩, ⟨"u", "", "A", none⟩] = .ok fsm ∧
      FSM.is_valid_state_map fsm.map "" = true) ∧
    (∀ states ts, ∃ e, FSM.new "" states ts = .error e) ∧
    FSM.new "" [⟨"", none, none⟩] [] = .error Err.invalidInitialState := by
  refine ⟨⟨_, rfl, rfl⟩, ?_, rfl⟩
  intro states ts
  unfold FSM.new
  cases hs : add_states [] states with
  | error e => exact ⟨e, rfl⟩
  | ok m1 =>
      dsimp only
      cases ht : add_transitions m1 ts with
      | error e => exact ⟨e, rfl⟩
      | ok m2 =>
          dsimp only
          exact ⟨Err.invalidInitialState, by rw [if_pos (Or.inl rfl)]⟩

end GrootFSM
